import Mathlib

/-!
Shallow embedding of the core of the `ipni/ipni-cli` repository, together
with theorems settling the specification claims about it.

CIDs are modelled as natural numbers.  Two values are reserved, mirroring
the two distinguished CID values the Go code tests with `cid.Undef` and
`schema.NoEntries.Cid`:
  * `0` stands for `cid.Undef`;
  * `1` stands for the no-entries sentinel `schema.NoEntries.Cid`.
Multihashes and peer ids are also modelled as natural numbers; block bytes
as `List Nat`.
-/

namespace IpniCli

/-- Mirrors `isPresent` in `pkg/adpub/entries_iter.go`:
`c != schema.NoEntries.Cid && c != cid.Undef`. -/
def isPresent (c : Nat) : Bool :=
  c ≠ 0 && c ≠ 1

/-! ## Count store and ad distance engine (`pkg/dtrack/distance_tracker.go`)

The `countStore` never stores block bytes: committing a block increments a
counter and memoizes the last `(key, bytes)` pair; `distance()` reads the
counter and resets the store.  `AdDistance.Get` runs a dagsync ad-chain
sync (external library) against this store and post-processes the count.
-/

/-- State of `countStore` (`distance_tracker.go`): a block counter plus a
single-slot memo of the last committed block.  `lastKey = none` models the
initial empty `lastKey` string. -/
structure CountStore where
  count : Nat
  lastKey : Option Nat
  lastVal : List Nat
  deriving Repr, DecidableEq

/-- Mirrors `newCountStore`: zero count, no memoized block. -/
def newCountStore : CountStore := ⟨0, none, []⟩

/-- Mirrors the `StorageWriteOpener` commit callback of `countStore`:
increment the count and remember the last block's key and bytes. -/
def countStoreCommit (cs : CountStore) (c : Nat) (bytes : List Nat) : CountStore :=
  ⟨cs.count + 1, some c, bytes⟩

/-- Mirrors the `StorageReadOpener` of `countStore`: only the last
committed block is readable; any other key is `ErrNotFound` (`none`). -/
def countStoreRead (cs : CountStore) (c : Nat) : Option (List Nat) :=
  if cs.lastKey = some c then some cs.lastVal else none

/-- Mirrors `countStore.distance()`: return the count and reset the
store's counter and memo. -/
def countStoreDistance (cs : CountStore) : Nat × CountStore :=
  (cs.count, ⟨0, none, []⟩)

/-- Commit a sequence of synced blocks to a count store, in order.  This
models the dagsync engine committing each traversed advertisement block
through the store's link system during `SyncAdChain`. -/
def commitBlocks (cs : CountStore) (blocks : List (Nat × List Nat)) : CountStore :=
  blocks.foldl (fun s b => countStoreCommit s b.1 b.2) cs

/-- Mirrors the depth passed to `dagsync.ScopedDepthLimit` in
`AdDistance.Get`: `a.depthLimit + 1` when the configured limit is nonzero,
otherwise `0` (which dagsync treats as unlimited). -/
def adDistanceSyncDepth (depthLimit : Int) : Int :=
  if depthLimit ≠ 0 then depthLimit + 1 else 0

/-- Mirrors the distance computation of `AdDistance.Get`
(`distance_tracker.go`): the blocks committed to a fresh count store
during the sync are counted, and a count exceeding the configured
`depthLimit` is replaced by the sentinel `-1`.  `blocks` is the list of
advertisement blocks the sync committed (newest first). -/
def adDistanceGet (depthLimit : Int) (blocks : List (Nat × List Nat)) : Int :=
  let cs := commitBlocks newCountStore blocks
  let dist := (countStoreDistance cs).1
  if (dist : Int) > depthLimit then -1 else (dist : Int)

/-! ## Publisher client options (`pkg/adpub/options.go`) -/

/-- Mirrors `config` in `pkg/adpub/options.go`.  Durations are in
milliseconds.  In Go, fields not listed in the `config{...}` literal of
`getOpts` are zero-initialized; the structure here records exactly the
fields of the source `config`. -/
structure AdpubConfig where
  adChainDepthLimit : Int
  entriesDepthLimit : Int
  maxSyncRetry : Nat
  syncRetryBackoffMs : Nat
  topic : String
  deriving Repr, DecidableEq

/-- An `Option` of `pkg/adpub/options.go`: a function updating the config,
possibly failing with an error message. -/
def AdpubOption : Type := AdpubConfig → Except String AdpubConfig

/-- Mirrors `defaultAdChainDepthLimit = 50000`. -/
def defaultAdChainDepthLimit : Int := 50000

/-- Mirrors `defaultEntriesDepthLimit = 1000`. -/
def defaultEntriesDepthLimit : Int := 1000

/-- Mirrors `getOpts` in `pkg/adpub/options.go`: starts from the literal
`config{adChainDepthLimit: ..., entriesDepthLimit: ..., topic: ...,
syncRetryBackoff: 500ms}` — `maxSyncRetry` is not listed there, so Go
zero-initializes it to `0` — then applies each option in order, failing
on the first option error. -/
def getOpts (opts : List AdpubOption) : Except String AdpubConfig :=
  opts.foldl
    (fun acc opt =>
      match acc with
      | .error e => .error e
      | .ok cfg => opt cfg)
    (.ok ⟨defaultAdChainDepthLimit, defaultEntriesDepthLimit, 0, 500, "/indexer/ingest/mainnet"⟩)

/-- Mirrors `WithMaxSyncRetry`: sets `maxSyncRetry`.  Its Go doc comment
reads "Defaults to 10 if unset." -/
def WithMaxSyncRetry (r : Nat) : AdpubOption :=
  fun c => .ok { c with maxSyncRetry := r }

/-- Mirrors `WithAdChainDepthLimit`: rejects negative limits, else sets
`adChainDepthLimit`. -/
def WithAdChainDepthLimit (limit : Int) : AdpubOption :=
  fun c =>
    if limit < 0 then .error "ad chain depth limit cannot be negative"
    else .ok { c with adChainDepthLimit := limit }

/-- Mirrors `WithEntriesDepthLimit`: rejects negative limits, else sets
`entriesDepthLimit`. -/
def WithEntriesDepthLimit (depthLimit : Int) : AdpubOption :=
  fun c =>
    if depthLimit < 0 then .error "ad entries depth limit cannot be negative"
    else .ok { c with entriesDepthLimit := depthLimit }

/-! ## Listing a synced ad chain (`pkg/adpub/client_store.go`, `list`)

`ClientStore.list` walks the locally synced advertisement chain from
`nextCid` back along `PreviousID`, writing one CID per line, inside the
loop `for i := 0; i < n; i++`.  The store is modelled as a function from
an ad CID to its decoded `PreviousID` link: `none` means the block is
absent or fails to load (an error return), `some 0` models a `nil`
`PreviousID` (tail of the chain), and `some p` with `p ≠ 0` links to the
previous ad. -/

/-- One iteration bound of the `for i := 0; i < n; i++` loop of
`ClientStore.list`, recursively: returns the CID lines written (in order)
and whether the walk stopped on a load error. -/
def storeListAux (store : Nat → Option Nat) : Nat → Nat → List Nat × Bool
  | _, 0 => ([], false)
  | next, i + 1 =>
    match store next with
    | none => ([], true)
    | some prev =>
      if prev = 0 then ([next], false)
      else
        let (rest, failed) := storeListAux store prev i
        (next :: rest, failed)

/-- Mirrors `ClientStore.list(ctx, nextCid, n, w)`: the Go loop runs
`for i := 0; i < n; i++`, so a non-positive `n` performs no iterations
(`Int.toNat` sends non-positive `n` to `0`). -/
def storeList (store : Nat → Option Nat) (nextCid : Nat) (n : Int) : List Nat × Bool :=
  storeListAux store nextCid n.toNat

/-! ## Ad sync with retry (`pkg/adpub/client.go`, `syncAdWithRetry`)

The publisher is modelled, as in the spec's retry-determinism property,
by the number `k` of initial sync attempts that fail before one
succeeds.  The result records which attempt's error is returned (for a
failure) and the number of backoff sleeps performed. -/

/-- The retry loop of `syncAdWithRetry` for `maxSyncRetry ≠ 0`: on each
failing attempt the counter is incremented, and once it exceeds
`maxRetry` the error of that attempt (identified by its attempt number)
is returned wrapped; otherwise the client sleeps once and retries.
`failsLeft` is how many further attempts the publisher will fail. -/
def syncAdLoop (maxRetry : Nat) : Nat → Nat → Except Nat Unit × Nat
  | 0, _ => (.ok (), 0)
  | failsLeft + 1, attempt =>
    let attempt' := attempt + 1
    if maxRetry < attempt' then (.error attempt', 0)
    else
      let (res, sleeps) := syncAdLoop maxRetry failsLeft attempt'
      (res, sleeps + 1)

/-- Mirrors `client.syncAdWithRetry` against a publisher that fails the
first `k` ad syncs and succeeds afterwards.  When `maxSyncRetry == 0` the
Go code performs a single attempt and returns its error (if any) without
sleeping; otherwise it runs the retry loop.  A failure result carries the
attempt number whose error is returned. -/
def syncAdWithRetry (maxRetry k : Nat) : Except Nat Unit × Nat :=
  if maxRetry = 0 then
    (if k = 0 then .ok () else .error 1, 0)
  else
    syncAdLoop maxRetry k 0

/-! ## Entries sync with retry (`pkg/adpub/client.go`)

`SyncEntriesWithRetry` repeatedly asks the dagsync subscriber to sync the
entries chain.  Failures whose error is a typed `ipld.ErrNotExists` or
whose message contains "content not found" are terminal; other failures
are retried after locating, in the local store, the first chunk of the
chain whose block is missing (`findNextMissingChunkLink`).

The local store is modelled, for the walk, as an association list from a
chunk CID to the CID of its `Next` link (`0` models a `nil` next link),
exactly the view `ClientStore.getNextChunkLink` provides: a key absent
from the list is `datastore.ErrNotFound`. -/

/-- Mirrors `matchesAt`-style prefix comparison used to model Go's
`strings.Contains`: does `needle` occur at the head of `hay`? -/
def matchesAt : List Char → List Char → Bool
  | [], _ => true
  | _ :: _, [] => false
  | a :: ns, b :: hs => a == b && matchesAt ns hs

/-- Model of Go `strings.Contains hay needle`: `needle` occurs somewhere
in `hay` (the empty needle always matches). -/
def containsSub (needle : List Char) : List Char → Bool
  | [] => needle.isEmpty
  | b :: hs => matchesAt needle (b :: hs) || containsSub needle hs

/-- A sync error as observed by the retry loops: whether it is a typed
`ipld.ErrNotExists`, and its message text. -/
structure SyncErr where
  typedNotExists : Bool
  msg : List Char
  deriving Repr, DecidableEq

/-- Mirrors the terminal-error test of `SyncEntriesWithRetry`:
`errors.Is(err, ipld.ErrNotExists{}) || strings.Contains(err.Error(),
"content not found")`. -/
def errIsContentNotFound (e : SyncErr) : Bool :=
  e.typedNotExists || containsSub "content not found".toList e.msg

/-- Outcome of one `sub.SyncEntries` attempt: success, or failure with an
error. -/
inductive SyncOutcome where
  | ok : SyncOutcome
  | fail : SyncErr → SyncOutcome
  deriving Repr, DecidableEq

/-- The chunk-chain store used by the retry walk: chunk CID to the CID of
its `Next` link (`0` for a `nil` next link). -/
def ChunkStore : Type := List (Nat × Nat)

/-- The loop body of `findNextMissingChunkLink`, with explicit fuel.
Returns `none` only when the fuel runs out, which cannot happen for a
walk that terminates within `fuel` steps (the Go loop would diverge on a
cyclic chain).  Otherwise it returns `(cid, depth, present)` exactly as
the Go function: the walk stops either at a non-present link (end of
chain, `present = false`) or at the first chunk whose block the store
does not hold (`present = true`). -/
def fnmclAux (store : ChunkStore) : Nat → Nat → Nat → Option (Nat × Nat × Bool)
  | 0, _, _ => none
  | fuel + 1, next, depth =>
    if isPresent next then
      match store.lookup next with
      | none => some (next, depth, true)
      | some nxt => fnmclAux store fuel nxt (depth + 1)
    else
      some (0, depth, false)

/-- Mirrors `findNextMissingChunkLink(ctx, next, store)`.  A store of `n`
chunks supports a terminating walk of at most `n` present chunks, so fuel
`n + 1` is always sufficient for terminating walks; the default value is
only reached when the Go code would loop forever. -/
def findNextMissingChunkLink (store : ChunkStore) (next : Nat) : Nat × Nat × Bool :=
  (fnmclAux store (store.length + 1) next 0).getD (0, 0, false)

/-- Follow `Next` links `k` times from `c` through the store, requiring
every intermediate chunk to be present (`isPresent` and held by the
store).  `chainAt store c k = some d` says the walk from `c` resolves `k`
links and reaches `d`. -/
def chainAt (store : ChunkStore) : Nat → Nat → Option Nat
  | c, 0 => some c
  | c, k + 1 =>
    if isPresent c then
      match store.lookup c with
      | some nxt => chainAt store nxt k
      | none => none
    else none

/-- Specification of a successful missing-chunk search: following `Next`
links `d` times from `id` (all `d` visited chunks being present in the
store) reaches `m`, which is a real chunk CID whose block the store does
not hold — i.e. `m` is the first missing chunk of the chain. -/
def FirstMissingSpec (store : ChunkStore) (id m d : Nat) : Prop :=
  chainAt store id d = some m ∧ isPresent m = true ∧ store.lookup m = none

/-- Specification of a walk that exhausts the chain locally: following
`Next` links `d` times from `id` reaches a link that is not a real chunk
CID (undefined or the no-entries sentinel) — the end of the chain, with
no chunk missing. -/
def EndOfChainSpec (store : ChunkStore) (id d : Nat) : Prop :=
  ∃ c, chainAt store id d = some c ∧ isPresent c = false

/-- Result of `SyncEntriesWithRetry`. -/
inductive EntriesResult where
  | ok : EntriesResult
  | contentNotFound : EntriesResult
  | maxRetries : EntriesResult
  | noTrace : EntriesResult
  deriving Repr, DecidableEq

/-- Observable outcome of a run of the entries retry loop: its result,
the number of backoff sleeps performed, and the final value of the
attempt counter. -/
structure EntriesRunOut where
  result : EntriesResult
  sleeps : Nat
  attempts : Nat
  deriving Repr, DecidableEq

/-- Mirrors the loop of `client.SyncEntriesWithRetry`.  The behaviour of
the external dagsync subscriber and the evolving local store are supplied
as a trace: one `(outcome, store)` pair per sync attempt, where `store`
is the local chunk store as seen by the recovery walk after that attempt.
`EntriesResult.noTrace` is only produced when the trace is shorter than
the number of attempts the loop makes. -/
def syncEntriesLoop (maxRetry : Nat) :
    List (SyncOutcome × ChunkStore) → Nat → Int → Nat → EntriesRunOut
  | [], _, _, attempt => ⟨.noTrace, 0, attempt⟩
  | (outcome, store) :: rest, id, recurLimit, attempt =>
    match outcome with
    | .ok => ⟨.ok, 0, attempt⟩
    | .fail e =>
      if errIsContentNotFound e then ⟨.contentNotFound, 0, attempt⟩
      else
        let attempt' := attempt + 1
        if maxRetry < attempt' then ⟨.maxRetries, 0, attempt'⟩
        else
          let next := findNextMissingChunkLink store id
          if next.2.2 = false then ⟨.ok, 0, attempt'⟩
          else
            let out := syncEntriesLoop maxRetry rest next.1 (recurLimit - (next.2.1 : Int)) attempt'
            ⟨out.result, out.sleeps + 1, out.attempts⟩

/-- Mirrors `client.SyncEntriesWithRetry(ctx, id)`: run the loop starting
at the entries root with the configured entries depth limit and attempt
counter `0`. -/
def syncEntriesWithRetry (maxRetry : Nat) (entriesDepthLimit : Int)
    (trace : List (SyncOutcome × ChunkStore)) (id : Nat) : EntriesRunOut :=
  syncEntriesLoop maxRetry trace id entriesDepthLimit 0

/-! ## Entries iterator (`pkg/adpub/entries_iter.go`)

The iterator holds the chain root, the CID of the next chunk to load, the
not-yet-returned multihashes of the current chunk (`chunkIter` with its
offset), and the number of chunks materialized so far.  The store is
modelled as the view `ClientStore.getEntriesChunk` provides: chunk CID to
`(next link CID, entries)`, with `none` for `datastore.ErrNotFound`
(chunk block absent) and next link `0` for a `nil` `Next`. -/

/-- State of an `EntriesIterator`.  `buf` is the unread remainder of the
current chunk's multihash slice (a `nil` `chunkIter` and an exhausted one
behave identically in `Next`, so only the remainder matters). -/
structure EntriesIterator where
  root : Nat
  next : Nat
  buf : List Nat
  chunkCount : Nat
  deriving Repr, DecidableEq

/-- Mirrors the iterator construction in `ClientStore.getAdvertisement`:
positioned at the entries root with nothing buffered. -/
def newEntriesIterator (root : Nat) : EntriesIterator :=
  ⟨root, root, [], 0⟩

/-- Result of one `EntriesIterator.Next` call: a multihash, `io.EOF`, or
a store error (`datastore.ErrNotFound` for an unsynced chunk). -/
inductive NextRes where
  | mh : Nat → NextRes
  | eof : NextRes
  | storeErr : NextRes
  deriving Repr, DecidableEq

/-- Mirrors `EntriesIterator.Next`: serve from the current chunk's buffer
if possible; otherwise, if the next link is not a real chunk CID, report
EOF; otherwise load the next chunk from the store, advance the link,
count the chunk, and return the first multihash of its slice — which is
`io.EOF` immediately when the slice is empty. -/
def entriesNext (store : Nat → Option (Nat × List Nat)) (it : EntriesIterator) :
    NextRes × EntriesIterator :=
  if isPresent it.root = false then (.eof, it)
  else
    match it.buf with
    | m :: rest => (.mh m, { it with buf := rest })
    | [] =>
      if isPresent it.next = false then (.eof, it)
      else
        match store it.next with
        | none => (.storeErr, it)
        | some (nxt, mhs) =>
          let it' : EntriesIterator :=
            ⟨it.root, nxt, mhs, it.chunkCount + 1⟩
          match mhs with
          | m :: rest => (.mh m, { it' with buf := rest })
          | [] => (.eof, it')

/-- Mirrors the loop of `EntriesIterator.Drain`, with explicit fuel (one
unit per `Next` call): collect multihashes until EOF (returned with
`errored = false`) or a store error (partial list with `errored = true`).
`none` only on fuel exhaustion. -/
def entriesDrainAux (store : Nat → Option (Nat × List Nat)) :
    Nat → EntriesIterator → List Nat → Option (List Nat × Bool × EntriesIterator)
  | 0, _, _ => none
  | fuel + 1, it, acc =>
    match entriesNext store it with
    | (.mh m, it') => entriesDrainAux store fuel it' (acc ++ [m])
    | (.eof, it') => some (acc, false, it')
    | (.storeErr, it') => some (acc, true, it')

/-- Mirrors `EntriesIterator.Drain` starting from a fresh iterator,
given enough fuel. -/
def entriesDrain (store : Nat → Option (Nat × List Nat)) (it : EntriesIterator)
    (fuel : Nat) : Option (List Nat × Bool × EntriesIterator) :=
  entriesDrainAux store fuel it []

/-! ## Ingest verifier (`pkg/verify/ingest.go`) -/

/-- Mirrors `verifyResult`: the four classification buckets, the total,
the accumulated errors, and the absent multihashes. -/
structure VerifyResult where
  totalMhChecked : Nat
  providerMismatch : Nat
  present : Nat
  absent : Nat
  failedToVerify : Nat
  errs : List String
  absentMhs : List Nat
  deriving Repr, DecidableEq

/-- Mirrors `verifyResult.passedVerification`. -/
def passedVerification (r : VerifyResult) : Bool :=
  r.present == r.totalMhChecked

/-- Mirrors `verifyResult.add`: field-wise accumulation. -/
def verifyResultAdd (r other : VerifyResult) : VerifyResult :=
  ⟨r.totalMhChecked + other.totalMhChecked,
   r.providerMismatch + other.providerMismatch,
   r.present + other.present,
   r.absent + other.absent,
   r.failedToVerify + other.failedToVerify,
   r.errs ++ other.errs,
   r.absentMhs ++ other.absentMhs⟩

/-- Outcome of the `client.FindBatch` call in `verifyIngest`: a
connection/protocol error, or a response carrying, per multihash, the
provider ids of its provider results.  A `nil` response is modelled by an
empty result list. -/
inductive FindOutcome where
  | connectErr : FindOutcome
  | response : List (Nat × List Nat) → FindOutcome
  deriving Repr, DecidableEq

/-- Lookup in the `resultsByMh` map built by `verifyIngest`: Go map
insertion makes the last entry for a key win. -/
def resultsByMh (mrs : List (Nat × List Nat)) (mh : Nat) : Option (List Nat) :=
  (mrs.filter (fun p => p.1 == mh)).getLast?.map (·.2)

/-- The per-multihash classification loop of `verifyIngest`: absent when
the map has no entry or an empty provider-result list, present when some
provider result carries the expected provider id, mismatch otherwise. -/
def classifyMhs (want : Nat) (mrs : List (Nat × List Nat)) (mhs : List Nat)
    (r : VerifyResult) : VerifyResult :=
  mhs.foldl
    (fun r mh =>
      match resultsByMh mrs mh with
      | none =>
        { r with absent := r.absent + 1, absentMhs := r.absentMhs ++ [mh] }
      | some provs =>
        if provs.isEmpty then
          { r with absent := r.absent + 1, absentMhs := r.absentMhs ++ [mh] }
        else if provs.any (fun p => p == want) then
          { r with present := r.present + 1 }
        else
          { r with providerMismatch := r.providerMismatch + 1 })
    r

/-- Mirrors `verifyIngest(ctx, find, dhFind, wantProvID, mhs)`: the total
is the batch size; a connection error marks the whole batch failed to
verify; a nil/empty response marks the whole batch absent; otherwise each
multihash is classified individually. -/
def verifyIngest (want : Nat) (mhs : List Nat) (outcome : FindOutcome) : VerifyResult :=
  let base : VerifyResult := ⟨mhs.length, 0, 0, 0, 0, [], []⟩
  match outcome with
  | .connectErr =>
    { base with
      failedToVerify := mhs.length
      errs := ["failed to connect to indexer"] }
  | .response mrs =>
    if mrs.isEmpty then { base with absent := mhs.length }
    else classifyMhs want mrs mhs base

/-- The bucket invariant the spec states for verify results. -/
def BucketsSum (r : VerifyResult) : Prop :=
  r.present + r.providerMismatch + r.absent + r.failedToVerify = r.totalMhChecked

/-! ## Distance tracker (`pkg/dtrack/distance_tracker.go`, `updateTrack`)

Per-provider state machine.  One poll fetches the provider info, checks a
sequence of error conditions (each edge-triggered against the stored
error kind), and otherwise issues one or two distance queries against the
publisher.  External effects are supplied as a `PollInput`: the cache
lookup, the client construction, and the results of the (at most two)
`Distance` calls of the poll. -/

/-- Mirrors the `errType*` constants. -/
inductive ErrType where
  | errNone : ErrType
  | errNoPublisher : ErrType
  | errNoSync : ErrType
  | errNotFound : ErrType
  | errPubClient : ErrType
  | errUpdate : ErrType
  deriving Repr, DecidableEq

/-- Mirrors `distTrack`: memoized distance, publisher head, last seen
advertisement, and the kind of the last reported error.  CID value `0`
models `cid.Undef`.  (The Go struct also stores the error value itself;
only its kind takes part in the control flow.) -/
structure DistTrack where
  dist : Int
  head : Nat
  ad : Nat
  errType : ErrType
  deriving Repr, DecidableEq

/-- The provider info fields `updateTrack` reads: the last advertisement
CID (`0` models `cid.Undef`) and whether the publisher entry is usable
(non-nil, valid id, non-empty address list). -/
structure ProvInfo where
  lastAdvertisement : Nat
  publisherOk : Bool
  deriving Repr, DecidableEq

deriving instance DecidableEq for Except

/-- External effects of one poll of `updateTrack` for one provider:
whether `provCache.Get` itself errored, the info it returned (`none`
models a nil info), whether `adpub.NewClient` failed, and the results of
the first and second `Distance` calls (`(distance, head)` and distance
respectively; `.error` models a sync failure). -/
structure PollInput where
  cacheErr : Bool
  pinfo : Option ProvInfo
  clientErr : Bool
  dist1 : Except Unit (Int × Nat)
  dist2 : Except Unit Int
  deriving Repr, DecidableEq

/-- An update emitted on the tracker's channel: an error update (tagged
with the kind stored when it was sent) or a distance update. -/
inductive TrackUpdate where
  | errUpd : ErrType → TrackUpdate
  | distUpd : Int → TrackUpdate
  deriving Repr, DecidableEq

/-- Edge-triggered error emission used by every error branch of
`updateTrack`: emit only when the stored kind differs from the new one,
and store the new kind. -/
def emitErr (track : DistTrack) (t : ErrType) : DistTrack × List TrackUpdate :=
  if track.errType ≠ t then
    ({ track with errType := t }, [.errUpd t])
  else
    (track, [])

/-- Mirrors `updateTrack` (`pkg/dtrack/distance_tracker.go`): one poll of
one provider.  Returns the updated track state and the updates emitted on
the channel, in order. -/
def updateTrack (track : DistTrack) (inp : PollInput) : DistTrack × List TrackUpdate :=
  if inp.cacheErr then (track, [])
  else
    match inp.pinfo with
    | none => emitErr track .errNotFound
    | some pinfo =>
      if pinfo.lastAdvertisement = 0 then emitErr track .errNoSync
      else if pinfo.publisherOk = false then emitErr track .errNoPublisher
      else if inp.clientErr then emitErr track .errPubClient
      else if track.head = 0 then
        match inp.dist1 with
        | .error _ => emitErr track .errUpdate
        | .ok (dist, head) =>
          let t : DistTrack :=
            { track with
              errType := .errNone
              ad := pinfo.lastAdvertisement
              dist := dist
              head := if dist ≠ -1 then head else track.head }
          (t, [.distUpd dist])
      else
        match inp.dist1 with
        | .error _ => emitErr track .errUpdate
        | .ok (dist, head) =>
          let t : DistTrack := { track with errType := .errNone }
          if dist = -1 then
            ({ t with dist := -1, head := 0 }, [.distUpd (-1)])
          else
            let moved := head ≠ t.head
            let t := if moved then { t with dist := t.dist + dist, head := head } else t
            if pinfo.lastAdvertisement ≠ t.ad then
              match inp.dist2 with
              | .error _ => emitErr t .errUpdate
              | .ok d2 =>
                let t := { t with errType := .errNone }
                if d2 = -1 then
                  ({ t with dist := -1, head := 0 }, [.distUpd (-1)])
                else
                  let t := { t with ad := pinfo.lastAdvertisement, dist := t.dist - d2 }
                  (t, [.distUpd t.dist])
            else
              if moved then (t, [.distUpd t.dist]) else (t, [])

/-- Failing conditions of a poll that arise before any successful
distance query: cache lookup error, missing provider info, never-synced
provider, unusable publisher, client construction failure, or a failing
first distance query. -/
def SteadyFail (inp : PollInput) : Prop :=
  inp.cacheErr = true ∨ inp.pinfo = none ∨
    (∃ p, inp.pinfo = some p ∧
      (p.lastAdvertisement = 0 ∨ p.publisherOk = false ∨ inp.clientErr = true ∨
        ∃ e, inp.dist1 = .error e))

/-! ## Helper lemmas -/

lemma commitBlocks_count (blocks : List (Nat × List Nat)) :
    ∀ cs : CountStore, (commitBlocks cs blocks).count = cs.count + blocks.length := by
  induction blocks with
  | nil => intro cs; simp [commitBlocks]
  | cons b bs ih =>
    intro cs
    have h := ih (countStoreCommit cs b.1 b.2)
    simp only [commitBlocks, List.foldl_cons] at h ⊢
    rw [h]
    simp [countStoreCommit]
    omega

/-- C1: for a distance query with a positive `ad_chain_depth_limit`,
`AdDistance.Get` returns `-1` exactly when the number of advertisements
traversed (blocks committed to the count store) exceeds the limit, and
the exact traversed count otherwise. -/
theorem adDistanceGet_limit_sentinel (depthLimit : Int) (blocks : List (Nat × List Nat))
    (_hpos : 0 < depthLimit) :
    (((blocks.length : Nat) : Int) > depthLimit → adDistanceGet depthLimit blocks = -1) ∧
    (((blocks.length : Nat) : Int) ≤ depthLimit →
      adDistanceGet depthLimit blocks = (blocks.length : Int)) := by
  have hcount : (commitBlocks newCountStore blocks).count = blocks.length := by
    rw [commitBlocks_count]
    simp [newCountStore]
  constructor
  · intro hgt
    simp only [adDistanceGet, countStoreDistance, hcount]
    rw [if_pos hgt]
  · intro hle
    simp only [adDistanceGet, countStoreDistance, hcount]
    rw [if_neg (by omega)]

/-- Witness for C1 at limit `1` and a two-block traversal. -/
theorem adDistanceGet_limit_sentinel_witness :
    (0 : Int) < 1 ∧
    ((((([(5, [7]), (6, [8])] : List (Nat × List Nat)).length : Nat) : Int) > 1 →
       adDistanceGet 1 [(5, [7]), (6, [8])] = -1) ∧
     (((([(5, [7]), (6, [8])] : List (Nat × List Nat)).length : Nat) : Int) ≤ 1 →
       adDistanceGet 1 [(5, [7]), (6, [8])] = (([(5, [7]), (6, [8])] : List (Nat × List Nat)).length : Int))) :=
  ⟨by decide, adDistanceGet_limit_sentinel 1 [(5, [7]), (6, [8])] (by decide)⟩

/-- C7: with `ad_chain_depth_limit = 0` the code passes depth `0`
(unlimited) to the sync, yet the final check `dist > depthLimit` then
flags every positive traversed count, so a one-advertisement traversal
yields the `-1` sentinel instead of the exact count `1`.  This
contradicts the option's documented meaning ("0 for unlimited"). -/
theorem adDistanceGet_zero_limit_returns_sentinel :
    adDistanceSyncDepth 0 = 0 ∧ adDistanceGet 0 [(5, [7])] = -1 := by
  constructor
  · rfl
  · rfl

/-- C9: `getOpts` with no options leaves `maxSyncRetry` at Go's zero
value `0`, not at the `10` promised by the doc comment of
`WithMaxSyncRetry`. -/
theorem getOpts_default_maxSyncRetry_zero :
    (getOpts []).toOption.map (fun c => c.maxSyncRetry) = some 0 ∧
    (getOpts []).toOption.map (fun c => c.maxSyncRetry) ≠ some 10 := by
  constructor
  · rfl
  · decide

/-- A concrete two-advertisement chain: ad `5` has previous `4`; ad `4`
is the tail (`nil` previous link). -/
def exampleAdStore : Nat → Option Nat :=
  fun c => if c = 5 then some 4 else if c = 4 then some 0 else none

/-- C8: `ClientStore.list` runs `for i := 0; i < n; i++`, so `n = 0`
writes no lines at all, even though the synced chain holds
advertisements (here two, which `n = 2` does list) — contradicting the
`-n` flag's documentation "Specify 0 for all". -/
theorem storeList_zero_writes_nothing :
    storeList exampleAdStore 5 0 = ([], false) ∧
    storeList exampleAdStore 5 2 = ([5, 4], false) := by
  constructor
  · rfl
  · rfl

lemma syncAdLoop_closed (m : Nat) :
    ∀ f a, a ≤ m →
      syncAdLoop m f a =
        (if f + a ≤ m then (Except.ok (), f) else (Except.error (m + 1), m - a)) := by
  intro f
  induction f with
  | zero =>
    intro a ha
    simp [syncAdLoop, ha]
  | succ f ih =>
    intro a ha
    by_cases hm : m < a + 1
    · have hae : a = m := by omega
      subst hae
      simp [syncAdLoop, hm]
    · have ha' : a + 1 ≤ m := by omega
      have hrec := ih (a + 1) ha'
      simp only [syncAdLoop, if_neg hm, hrec]
      by_cases hf : f + (a + 1) ≤ m
      · rw [if_pos hf, if_pos (by omega)]
      · rw [if_neg hf, if_neg (by omega)]
        simp
        omega

/-- C4: against a publisher failing the first `k` ad syncs, the retry
loop of `syncAdWithRetry` succeeds exactly when `k ≤ maxSyncRetry`,
sleeping once per failed attempt that is retried: `k` sleeps before a
success, `maxSyncRetry` sleeps before giving up, in which case the error
returned is that of the final attempt (number `maxSyncRetry + 1`). -/
theorem syncAdWithRetry_retry_determinism (m k : Nat) :
    syncAdWithRetry m k =
      (if k ≤ m then Except.ok () else Except.error (m + 1), min k m) := by
  by_cases hm : m = 0
  · subst hm
    by_cases hk : k = 0
    · subst hk
      simp [syncAdWithRetry]
    · simp [syncAdWithRetry, hk]
  · have hloop := syncAdLoop_closed m k 0 (Nat.zero_le m)
    simp only [syncAdWithRetry, if_neg hm, hloop]
    by_cases hk : k ≤ m
    · rw [if_pos (by omega), if_pos hk]
      simp [Nat.min_eq_left hk]
    · rw [if_neg (by omega), if_neg hk]
      simp
      omega


/-- Sum of the four classification buckets of a verify result. -/
def bucketsTotal (r : VerifyResult) : Nat :=
  r.present + r.providerMismatch + r.absent + r.failedToVerify

lemma classifyMhs_step_bucketsTotal (want : Nat) (mrs : List (Nat × List Nat))
    (r : VerifyResult) (mh : Nat) :
    bucketsTotal (classifyMhs want mrs [mh] r) = bucketsTotal r + 1 := by
  simp only [classifyMhs, List.foldl_cons, List.foldl_nil]
  cases hres : resultsByMh mrs mh with
  | none => simp [bucketsTotal]; omega
  | some provs =>
    by_cases hempty : provs.isEmpty
    · simp [hempty, bucketsTotal]; omega
    · by_cases hany : provs.any (fun p => p == want)
      · simp [hempty, hany, bucketsTotal]; omega
      · simp [hempty, hany, bucketsTotal]; omega

lemma classifyMhs_step_total (want : Nat) (mrs : List (Nat × List Nat))
    (r : VerifyResult) (mh : Nat) :
    (classifyMhs want mrs [mh] r).totalMhChecked = r.totalMhChecked := by
  simp only [classifyMhs, List.foldl_cons, List.foldl_nil]
  cases hres : resultsByMh mrs mh with
  | none => rfl
  | some provs =>
    by_cases hempty : provs.isEmpty
    · simp [hempty]
    · by_cases hany : provs.any (fun p => p == want)
      · simp [hempty, hany]
      · simp [hempty, hany]

lemma classifyMhs_cons (want : Nat) (mrs : List (Nat × List Nat))
    (r : VerifyResult) (mh : Nat) (mhs : List Nat) :
    classifyMhs want mrs (mh :: mhs) r = classifyMhs want mrs mhs (classifyMhs want mrs [mh] r) := by
  simp [classifyMhs]

lemma classifyMhs_bucketsTotal (want : Nat) (mrs : List (Nat × List Nat)) :
    ∀ (mhs : List Nat) (r : VerifyResult),
      bucketsTotal (classifyMhs want mrs mhs r) = bucketsTotal r + mhs.length := by
  intro mhs
  induction mhs with
  | nil => intro r; simp [classifyMhs]
  | cons mh mhs ih =>
    intro r
    rw [classifyMhs_cons, ih, classifyMhs_step_bucketsTotal]
    simp
    omega

lemma classifyMhs_total (want : Nat) (mrs : List (Nat × List Nat)) :
    ∀ (mhs : List Nat) (r : VerifyResult),
      (classifyMhs want mrs mhs r).totalMhChecked = r.totalMhChecked := by
  intro mhs
  induction mhs with
  | nil => intro r; simp [classifyMhs]
  | cons mh mhs ih =>
    intro r
    rw [classifyMhs_cons, ih, classifyMhs_step_total]

/-- C5: every `verifyIngest` call classifies each checked multihash into
exactly one of the four buckets, so their sum equals the number of
multihashes checked; a connection failure sends the whole batch to
`FailedToVerify`; and `verifyResult.add` preserves the bucket
invariant. -/
theorem verifyIngest_buckets (want : Nat) (mhs : List Nat) (outcome : FindOutcome)
    (r other : VerifyResult) :
    BucketsSum (verifyIngest want mhs outcome) ∧
    (outcome = .connectErr → (verifyIngest want mhs outcome).failedToVerify = mhs.length) ∧
    (BucketsSum r → BucketsSum other → BucketsSum (verifyResultAdd r other)) := by
  refine ⟨?_, ?_, ?_⟩
  · cases outcome with
    | connectErr => simp [verifyIngest, BucketsSum]
    | response mrs =>
      by_cases hempty : mrs.isEmpty
      · simp [verifyIngest, hempty, BucketsSum]
      · have hsum := classifyMhs_bucketsTotal want mrs mhs ⟨mhs.length, 0, 0, 0, 0, [], []⟩
        have htot := classifyMhs_total want mrs mhs ⟨mhs.length, 0, 0, 0, 0, [], []⟩
        simp only [verifyIngest]
        rw [if_neg hempty]
        simp only [BucketsSum, bucketsTotal] at hsum htot ⊢
        omega
  · intro hout
    subst hout
    simp [verifyIngest]
  · intro h1 h2
    simp only [BucketsSum, verifyResultAdd] at h1 h2 ⊢
    omega

/-- Witness for C5: the invariant at a concrete mixed batch aggregated
with a concrete failed batch. -/
theorem verifyIngest_buckets_witness :
    BucketsSum (verifyResultAdd
      (verifyIngest 7 [1, 2, 3] (.response [(1, [7]), (2, [9])]))
      (verifyIngest 7 [4] .connectErr)) :=
  (verifyIngest_buckets 7 [1, 2, 3] (.response [(1, [7]), (2, [9])])
      (verifyIngest 7 [1, 2, 3] (.response [(1, [7]), (2, [9])]))
      (verifyIngest 7 [4] .connectErr)).2.2
    (by rfl) (by rfl)

/-- C3: a sync attempt failing with an error recognized as publisher
content-not-found (typed `ipld.ErrNotExists` or a message containing
"content not found") makes `SyncEntriesWithRetry` return the
`ContentNotFound` error at once: the attempt counter is not incremented,
no backoff sleep is performed, and no further attempt is made (the
remaining trace `rest` is arbitrary and unused). -/
theorem syncEntries_contentNotFound_terminal (maxRetry : Nat)
    (rest : List (SyncOutcome × ChunkStore)) (store : ChunkStore) (e : SyncErr)
    (id : Nat) (limit : Int) (attempt : Nat)
    (h : errIsContentNotFound e = true) :
    syncEntriesLoop maxRetry ((SyncOutcome.fail e, store) :: rest) id limit attempt =
      ⟨.contentNotFound, 0, attempt⟩ ∧
    syncEntriesWithRetry maxRetry limit ((SyncOutcome.fail e, store) :: rest) id =
      ⟨.contentNotFound, 0, 0⟩ := by
  constructor
  · simp [syncEntriesLoop, h]
  · simp [syncEntriesWithRetry, syncEntriesLoop, h]

/-- Witness for C3: a concrete error whose message contains
"content not found", at attempt `3` of a client allowing `10` retries. -/
theorem syncEntries_contentNotFound_terminal_witness :
    errIsContentNotFound ⟨false, "sync one: content not found".toList⟩ = true ∧
    (syncEntriesLoop 10 [(SyncOutcome.fail ⟨false, "sync one: content not found".toList⟩, [(2, 3)])] 2 100 3 =
       ⟨.contentNotFound, 0, 3⟩ ∧
     syncEntriesWithRetry 10 100 [(SyncOutcome.fail ⟨false, "sync one: content not found".toList⟩, [(2, 3)])] 2 =
       ⟨.contentNotFound, 0, 0⟩) :=
  ⟨by decide,
   syncEntries_contentNotFound_terminal 10 [] [(2, 3)]
     ⟨false, "sync one: content not found".toList⟩ 2 100 3 (by decide)⟩

lemma fnmclAux_true_spec (store : ChunkStore) :
    ∀ (fuel next depth m dep : Nat),
      fnmclAux store fuel next depth = some (m, dep, true) →
      ∃ k, dep = depth + k ∧ chainAt store next k = some m ∧
        isPresent m = true ∧ store.lookup m = none := by
  intro fuel
  induction fuel with
  | zero => intro next depth m dep h; simp [fnmclAux] at h
  | succ fuel ih =>
    intro next depth m dep h
    by_cases hp : isPresent next = true
    · rw [fnmclAux, if_pos hp] at h
      cases hl : store.lookup next with
      | none =>
        rw [hl] at h
        simp at h
        obtain ⟨hm, hdep⟩ := h
        refine ⟨0, by omega, ?_, ?_, ?_⟩
        · simp [chainAt, hm]
        · rw [← hm]; exact hp
        · rw [← hm]; exact hl
      | some nxt =>
        rw [hl] at h
        obtain ⟨k, hk, hchain, hpm, hlm⟩ := ih nxt (depth + 1) m dep h
        refine ⟨k + 1, by omega, ?_, hpm, hlm⟩
        rw [chainAt, if_pos hp, hl]
        exact hchain
    · rw [fnmclAux, if_neg hp] at h
      simp at h

lemma fnmclAux_false_spec (store : ChunkStore) :
    ∀ (fuel next depth r dep : Nat),
      fnmclAux store fuel next depth = some (r, dep, false) →
      ∃ k c, dep = depth + k ∧ chainAt store next k = some c ∧ isPresent c = false := by
  intro fuel
  induction fuel with
  | zero => intro next depth r dep h; simp [fnmclAux] at h
  | succ fuel ih =>
    intro next depth r dep h
    by_cases hp : isPresent next = true
    · rw [fnmclAux, if_pos hp] at h
      cases hl : store.lookup next with
      | none =>
        rw [hl] at h
        simp at h
      | some nxt =>
        rw [hl] at h
        obtain ⟨k, c, hk, hchain, hpc⟩ := ih nxt (depth + 1) r dep h
        refine ⟨k + 1, c, by omega, ?_, hpc⟩
        rw [chainAt, if_pos hp, hl]
        exact hchain
    · rw [fnmclAux, if_neg hp] at h
      simp at h
      refine ⟨0, next, by omega, by simp [chainAt], ?_⟩
      simpa using hp

/-- C2: when a sync attempt fails non-terminally and the incremented
attempt count stays within `maxSyncRetry`, the loop resumes the next
attempt at the result of the local walk: if the walk finds a missing
chunk (`present = true`), the next attempt starts at that CID — which is
the first chunk along the `Next` chain whose block the store lacks — with
the depth budget reduced by the number of already-present chunks visited,
and one backoff sleep is performed; if instead the walk exhausts the
chain locally, the call returns success at once. -/
theorem syncEntries_fail_resume (maxRetry : Nat)
    (rest : List (SyncOutcome × ChunkStore)) (store : ChunkStore) (e : SyncErr)
    (id : Nat) (limit : Int) (attempt : Nat)
    (hterm : errIsContentNotFound e = false)
    (hbudget : attempt + 1 ≤ maxRetry) :
    (∀ m d, findNextMissingChunkLink store id = (m, d, true) →
      syncEntriesLoop maxRetry ((SyncOutcome.fail e, store) :: rest) id limit attempt =
        (let out := syncEntriesLoop maxRetry rest m (limit - (d : Int)) (attempt + 1)
         ⟨out.result, out.sleeps + 1, out.attempts⟩) ∧
      FirstMissingSpec store id m d) ∧
    (∀ r d, fnmclAux store (store.length + 1) id 0 = some (r, d, false) →
      syncEntriesLoop maxRetry ((SyncOutcome.fail e, store) :: rest) id limit attempt =
        ⟨.ok, 0, attempt + 1⟩ ∧
      EndOfChainSpec store id d) := by
  have hnr : ¬ (maxRetry < attempt + 1) := by omega
  constructor
  · intro m d hfind
    constructor
    · simp only [syncEntriesLoop, hterm, Bool.false_eq_true, if_false, if_neg hnr, hfind]
      simp
    · have haux : fnmclAux store (store.length + 1) id 0 = some (m, d, true) := by
        cases haux : fnmclAux store (store.length + 1) id 0 with
        | none =>
          rw [findNextMissingChunkLink, haux] at hfind
          simp at hfind
        | some v =>
          rw [findNextMissingChunkLink, haux] at hfind
          simp at hfind
          rw [hfind]
      obtain ⟨k, hk, hchain, hpm, hlm⟩ := fnmclAux_true_spec store (store.length + 1) id 0 m d haux
      have hkd : k = d := by omega
      subst hkd
      exact ⟨hchain, hpm, hlm⟩
  · intro r d haux
    have hfind : findNextMissingChunkLink store id = (r, d, false) := by
      rw [findNextMissingChunkLink, haux]
      rfl
    constructor
    · simp only [syncEntriesLoop, hterm, Bool.false_eq_true, if_false, if_neg hnr, hfind]
      simp
    · obtain ⟨k, c, hk, hchain, hpc⟩ := fnmclAux_false_spec store (store.length + 1) id 0 r d haux
      have hkd : k = d := by omega
      subst hkd
      exact ⟨c, hchain, hpc⟩

/-- Witness for C2: a store holding only chunk `2` (whose next link is
`3`): the walk finds missing chunk `3` at visited depth `1`, and the loop
resumes there with one sleep, succeeding on the next attempt. -/
theorem syncEntries_fail_resume_witness :
    errIsContentNotFound ⟨false, ['x']⟩ = false ∧ 0 + 1 ≤ 2 ∧
    ((∀ m d, findNextMissingChunkLink [(2, 3)] 2 = (m, d, true) →
      syncEntriesLoop 2 [(SyncOutcome.fail ⟨false, ['x']⟩, [(2, 3)]), (SyncOutcome.ok, [])] 2 10 0 =
        (let out := syncEntriesLoop 2 [(SyncOutcome.ok, [])] m (10 - (d : Int)) (0 + 1)
         ⟨out.result, out.sleeps + 1, out.attempts⟩) ∧
      FirstMissingSpec [(2, 3)] 2 m d) ∧
    (∀ r d, fnmclAux [(2, 3)] (([(2, 3)] : ChunkStore).length + 1) 2 0 = some (r, d, false) →
      syncEntriesLoop 2 [(SyncOutcome.fail ⟨false, ['x']⟩, [(2, 3)]), (SyncOutcome.ok, [])] 2 10 0 =
        ⟨.ok, 0, 0 + 1⟩ ∧
      EndOfChainSpec [(2, 3)] 2 d)) :=
  ⟨by decide, by decide,
   syncEntries_fail_resume 2 [(SyncOutcome.ok, [])] [(2, 3)] ⟨false, ['x']⟩ 2 10 0
     (by decide) (by decide)⟩

/-! ## Entries chain representation for the iterator theorems -/

/-- The CID the iterator's next link takes when positioned at the head of
a chunk list: the first chunk's CID, or `0` (undefined) past the end. -/
def chunkHeadCid : List (Nat × List Nat) → Nat
  | [] => 0
  | (c, _) :: _ => c

/-- The store holds exactly the given chunk list as a chain starting at
link `nxt`: each chunk is a real CID present in the store, its stored
next link points at the following chunk, and the last chunk's next link
is `0` (a `nil` `Next`). -/
def StoreChain (store : Nat → Option (Nat × List Nat)) : Nat → List (Nat × List Nat) → Prop
  | nxt, [] => nxt = 0
  | nxt, (c, mhs) :: rest =>
    nxt = c ∧ isPresent c = true ∧ store c = some (chunkHeadCid rest, mhs) ∧
      StoreChain store (chunkHeadCid rest) rest

@[simp] lemma chunkHeadCid_nil : chunkHeadCid [] = 0 := rfl

@[simp] lemma chunkHeadCid_cons (c : Nat) (mhs : List Nat) (rest : List (Nat × List Nat)) :
    chunkHeadCid ((c, mhs) :: rest) = c := rfl

lemma storeChain_append (store : Nat → Option (Nat × List Nat)) :
    ∀ (l1 l2 : List (Nat × List Nat)) (nxt : Nat),
      StoreChain store nxt (l1 ++ l2) → StoreChain store (chunkHeadCid l2) l2 := by
  intro l1
  induction l1 with
  | nil =>
    intro l2 nxt h
    cases l2 with
    | nil => rfl
    | cons p rest =>
      obtain ⟨c, mhs⟩ := p
      obtain ⟨hn, hp, hs, hrest⟩ := h
      exact ⟨rfl, hp, hs, hrest⟩
  | cons p l1 ih =>
    intro l2 nxt h
    obtain ⟨c, mhs⟩ := p
    obtain ⟨_, _, _, hrest⟩ := h
    exact ih l2 (chunkHeadCid (l1 ++ l2)) hrest

lemma entriesDrainAux_step_mh (store : Nat → Option (Nat × List Nat)) (fl : Nat)
    (it it' : EntriesIterator) (ac : List Nat) (m : Nat)
    (h : entriesNext store it = (.mh m, it')) :
    entriesDrainAux store (fl + 1) it ac = entriesDrainAux store fl it' (ac ++ [m]) := by
  rw [entriesDrainAux, h]

lemma entriesDrainAux_step_eof (store : Nat → Option (Nat × List Nat)) (fl : Nat)
    (it it' : EntriesIterator) (ac : List Nat)
    (h : entriesNext store it = (.eof, it')) :
    entriesDrainAux store (fl + 1) it ac = some (ac, false, it') := by
  rw [entriesDrainAux, h]

lemma entriesDrainAux_buf (store : Nat → Option (Nat × List Nat)) (root : Nat)
    (hroot : isPresent root = true) :
    ∀ (ms : List Nat) (fuel nxt count : Nat) (acc : List Nat),
      entriesDrainAux store (ms.length + fuel) ⟨root, nxt, ms, count⟩ acc =
        entriesDrainAux store fuel ⟨root, nxt, [], count⟩ (acc ++ ms) := by
  intro ms
  induction ms with
  | nil => intro fuel nxt count acc; simp
  | cons m ms ih =>
    intro fuel nxt count acc
    have hlen : (m :: ms).length + fuel = (ms.length + fuel) + 1 := by
      simp [List.length_cons]
      omega
    rw [hlen]
    have hnext : entriesNext store ⟨root, nxt, m :: ms, count⟩ =
        (.mh m, ⟨root, nxt, ms, count⟩) := by
      simp [entriesNext, hroot]
    simp only [entriesDrainAux, hnext]
    rw [ih fuel nxt count (acc ++ [m])]
    simp

lemma entriesDrainAux_chain (store : Nat → Option (Nat × List Nat)) (root : Nat)
    (hroot : isPresent root = true) :
    ∀ (pre : List (Nat × List Nat)) (ce : Nat) (post : List (Nat × List Nat))
      (count : Nat) (acc : List Nat),
      StoreChain store (chunkHeadCid (pre ++ (ce, []) :: post)) (pre ++ (ce, []) :: post) →
      (∀ p ∈ pre, p.2 ≠ []) →
      entriesDrainAux store ((pre.map Prod.snd).join.length + 1)
          ⟨root, chunkHeadCid (pre ++ (ce, []) :: post), [], count⟩ acc =
        some (acc ++ (pre.map Prod.snd).join, false,
          ⟨root, chunkHeadCid post, [], count + pre.length + 1⟩) := by
  intro pre
  induction pre with
  | nil =>
    intro ce post count acc hchain _
    obtain ⟨hn, hpc, hsc, _⟩ := hchain
    have hnext : entriesNext store ⟨root, ce, [], count⟩ =
        (.eof, ⟨root, chunkHeadCid post, [], count + 1⟩) := by
      simp [entriesNext, hroot, hpc, hsc]
    simp only [List.nil_append, chunkHeadCid_cons, List.map_nil, List.join,
      List.length_nil, Nat.zero_add, entriesDrainAux, hnext]
    simp
  | cons p pre ih =>
    intro ce post count acc hchain hpre
    obtain ⟨c, mhs⟩ := p
    obtain ⟨hn, hpc, hsc, hrest⟩ := hchain
    have hmhs : mhs ≠ [] := by
      have := hpre (c, mhs) (by simp)
      simpa using this
    cases mhs with
    | nil => exact absurd rfl hmhs
    | cons m ms =>
      have hsc' : store c = some (chunkHeadCid (pre ++ (ce, []) :: post), m :: ms) := hsc
      have hnext : entriesNext store ⟨root, c, [], count⟩ =
          (.mh m, ⟨root, chunkHeadCid (pre ++ (ce, []) :: post), ms, count + 1⟩) := by
        simp [entriesNext, hroot, hpc, hsc']
      have hfuel : (((c, m :: ms) :: pre).map Prod.snd).join.length + 1 =
          (ms.length + ((pre.map Prod.snd).join.length + 1)) + 1 := by
        simp
        omega
      rw [List.cons_append, chunkHeadCid_cons, hfuel]
      rw [entriesDrainAux_step_mh store (ms.length + ((pre.map Prod.snd).join.length + 1))
        _ _ acc m hnext]
      rw [entriesDrainAux_buf store root hroot ms ((pre.map Prod.snd).join.length + 1)
        (chunkHeadCid (pre ++ (ce, []) :: post)) (count + 1) (acc ++ [m])]
      rw [ih ce post (count + 1) (acc ++ [m] ++ ms) hrest
        (fun q hq => hpre q (by simp [hq]))]
      have hlist : acc ++ [m] ++ ms ++ (pre.map Prod.snd).join =
          acc ++ (((c, m :: ms) :: pre).map Prod.snd).join := by
        simp
      have hcount : count + 1 + pre.length + 1 = count + ((c, m :: ms) :: pre).length + 1 := by
        simp only [List.length_cons]
        omega
      rw [hlist, hcount]

/-- C10: for a locally stored entries chain `pre ++ (ce, []) :: post`
whose chunk `ce` has an empty entries slice (and all earlier chunks
non-empty), loading `ce` makes `Next` return EOF even though its next
link is the head of `post`, present in the store; consequently `Drain`
returns exactly the multihashes of the chunks before `ce` with no error,
and the chunk count at that point is `pre.length + 1`, excluding every
chunk after the empty one. -/
theorem entriesIterator_empty_chunk_truncates (store : Nat → Option (Nat × List Nat))
    (pre post : List (Nat × List Nat)) (ce : Nat)
    (hchain : StoreChain store (chunkHeadCid (pre ++ (ce, []) :: post))
      (pre ++ (ce, []) :: post))
    (hpre : ∀ p ∈ pre, p.2 ≠ []) :
    (∀ count, entriesNext store ⟨chunkHeadCid (pre ++ (ce, []) :: post), ce, [], count⟩ =
      (.eof, ⟨chunkHeadCid (pre ++ (ce, []) :: post), chunkHeadCid post, [], count + 1⟩)) ∧
    (post ≠ [] → ∃ v, store (chunkHeadCid post) = some v) ∧
    entriesDrain store (newEntriesIterator (chunkHeadCid (pre ++ (ce, []) :: post)))
        ((pre.map Prod.snd).join.length + 1) =
      some ((pre.map Prod.snd).join, false,
        ⟨chunkHeadCid (pre ++ (ce, []) :: post), chunkHeadCid post, [], pre.length + 1⟩) := by
  have hroot : isPresent (chunkHeadCid (pre ++ (ce, []) :: post)) = true := by
    cases pre with
    | nil => exact hchain.2.1
    | cons p pre =>
      obtain ⟨c, mhs⟩ := p
      exact hchain.2.1
  have htail := storeChain_append store pre ((ce, []) :: post)
    (chunkHeadCid (pre ++ (ce, []) :: post)) hchain
  obtain ⟨hce, hpce, hsce, hpost⟩ := htail
  refine ⟨?_, ?_, ?_⟩
  · intro count
    simp [entriesNext, hroot, hpce, hsce]
  · intro hne
    cases post with
    | nil => exact absurd rfl hne
    | cons q qost =>
      obtain ⟨c, mhs⟩ := q
      exact ⟨_, hpost.2.2.1⟩
  · have hmain := entriesDrainAux_chain store (chunkHeadCid (pre ++ (ce, []) :: post)) hroot
      pre ce post 0 [] hchain hpre
    simpa [entriesDrain, newEntriesIterator] using hmain

/-- A concrete three-chunk entries chain: chunk `2` holds `[10, 11]` and
links to chunk `3`, which is empty and links to chunk `4`, which holds
`[12]` and ends the chain. -/
def exampleEntriesStore : Nat → Option (Nat × List Nat) :=
  fun c =>
    if c = 2 then some (3, [10, 11])
    else if c = 3 then some (4, [])
    else if c = 4 then some (0, [12])
    else none

/-- Witness for C10 on `exampleEntriesStore`: draining stops at the empty
chunk `3`, returning only `[10, 11]` with no error and chunk count `2`,
although chunk `4` is present in the store. -/
theorem entriesIterator_empty_chunk_truncates_witness :
    (∀ count, entriesNext exampleEntriesStore ⟨2, 3, [], count⟩ =
        (.eof, ⟨2, 4, [], count + 1⟩)) ∧
    (([(4, [12])] : List (Nat × List Nat)) ≠ [] → ∃ v, exampleEntriesStore 4 = some v) ∧
    entriesDrain exampleEntriesStore (newEntriesIterator 2) 3 =
      some ([10, 11], false, ⟨2, 4, [], 2⟩) :=
  entriesIterator_empty_chunk_truncates exampleEntriesStore [(2, [10, 11])] [(4, [12])] 3
    ⟨rfl, rfl, rfl, rfl, rfl, rfl, rfl, rfl, rfl, rfl⟩ (by decide)

/-! ## Claims about the distance tracker's edge triggering -/

/-- A track state whose last reported error kind is `Update`, with a
memoized head `2` and last seen advertisement `3`. -/
def c6Track : DistTrack := ⟨5, 2, 3, .errUpdate⟩

/-- A poll in which the provider info is unchanged (last advertisement
`4`, valid publisher), the head distance query succeeds with distance `0`
and unchanged head `2`, and the last-seen-movement distance query
fails. -/
def c6Input : PollInput := ⟨false, some ⟨4, true⟩, false, .ok (0, 2), .error ()⟩

/-- C6 counterexample: two consecutive polls under the identical failing
condition each emit an error update of the same kind (`Update`), because
the successful first distance query resets the stored kind to `none`
before the second query's failure is compared against it.  This refutes
the claim that an unchanged failing condition across repeated polls
produces at most one emitted update per transition. -/
theorem updateTrack_reemits_same_error_kind :
    updateTrack c6Track c6Input = (c6Track, [.errUpd .errUpdate]) ∧
    updateTrack (updateTrack c6Track c6Input).1 c6Input =
      (c6Track, [.errUpd .errUpdate]) := by
  constructor
  · rfl
  · rfl

/-- The error kind a poll reports when it fails before any successful
distance query, following the branch order of `updateTrack`; `none` when
the poll gets further (or does nothing at all). -/
def earlyKind (inp : PollInput) : Option ErrType :=
  if inp.cacheErr then none
  else
    match inp.pinfo with
    | none => some .errNotFound
    | some p =>
      if p.lastAdvertisement = 0 then some .errNoSync
      else if p.publisherOk = false then some .errNoPublisher
      else if inp.clientErr then some .errPubClient
      else
        match inp.dist1 with
        | .error _ => some .errUpdate
        | .ok _ => none

lemma updateTrack_earlyKind (track : DistTrack) (inp : PollInput) (k : ErrType)
    (h : earlyKind inp = some k) :
    updateTrack track inp = emitErr track k := by
  by_cases hc : inp.cacheErr
  · simp [earlyKind, hc] at h
  · cases hp : inp.pinfo with
    | none =>
      simp [earlyKind, hc, hp] at h
      rw [← h]
      simp [updateTrack, hc, hp]
    | some p =>
      by_cases hla : p.lastAdvertisement = 0
      · simp [earlyKind, hc, hp, hla] at h
        rw [← h]
        simp [updateTrack, hc, hp, hla]
      · by_cases hpub : p.publisherOk = false
        · simp [earlyKind, hc, hp, hla, hpub] at h
          rw [← h]
          simp [updateTrack, hc, hp, hla, hpub]
        · by_cases hcl : inp.clientErr
          · simp [earlyKind, hc, hp, hla, hpub, hcl] at h
            rw [← h]
            simp [updateTrack, hc, hp, hla, hpub, hcl]
          · cases hd : inp.dist1 with
            | error e =>
              simp [earlyKind, hc, hp, hla, hpub, hcl, hd] at h
              rw [← h]
              by_cases hh : track.head = 0
              · simp [updateTrack, hc, hp, hla, hpub, hcl, hd, hh]
              · simp [updateTrack, hc, hp, hla, hpub, hcl, hd, hh]
            | ok v =>
              simp [earlyKind, hc, hp, hla, hpub, hcl, hd] at h

lemma emitErr_len (track : DistTrack) (k : ErrType) :
    (emitErr track k).2.length ≤ 1 := by
  by_cases ht : track.errType = k <;> simp [emitErr, ht]

lemma emitErr_idem (track : DistTrack) (k : ErrType) :
    (emitErr (emitErr track k).1 k).2 = [] := by
  by_cases ht : track.errType = k <;> simp [emitErr, ht]

lemma steadyFail_earlyKind (inp : PollInput) (h : SteadyFail inp) :
    inp.cacheErr = true ∨ ∃ k, earlyKind inp = some k := by
  by_cases hc : inp.cacheErr
  · left; simpa using hc
  · right
    obtain hch | hp | ⟨p, hp, hcase⟩ := h
    · exact absurd hch (by simpa using hc)
    · exact ⟨.errNotFound, by simp [earlyKind, hc, hp]⟩
    · obtain h1 | h2 | h3 | ⟨e, he⟩ := hcase
      · exact ⟨.errNoSync, by simp [earlyKind, hc, hp, h1]⟩
      · by_cases hla : p.lastAdvertisement = 0
        · exact ⟨.errNoSync, by simp [earlyKind, hc, hp, hla]⟩
        · exact ⟨.errNoPublisher, by simp [earlyKind, hc, hp, hla, h2]⟩
      · by_cases hla : p.lastAdvertisement = 0
        · exact ⟨.errNoSync, by simp [earlyKind, hc, hp, hla]⟩
        · by_cases hpub : p.publisherOk = false
          · exact ⟨.errNoPublisher, by simp [earlyKind, hc, hp, hla, hpub]⟩
          · exact ⟨.errPubClient, by simp [earlyKind, hc, hp, hla, hpub, h3]⟩
      · by_cases hla : p.lastAdvertisement = 0
        · exact ⟨.errNoSync, by simp [earlyKind, hc, hp, hla]⟩
        · by_cases hpub : p.publisherOk = false
          · exact ⟨.errNoPublisher, by simp [earlyKind, hc, hp, hla, hpub]⟩
          · by_cases hcl : inp.clientErr
            · exact ⟨.errPubClient, by simp [earlyKind, hc, hp, hla, hpub, hcl]⟩
            · exact ⟨.errUpdate, by simp [earlyKind, hc, hp, hla, hpub, hcl, he]⟩

/-- C6 (amended): for failing conditions arising before any successful
distance query of the poll — cache lookup error, missing provider info,
never-synced provider, unusable publisher address, client construction
failure, or a failing first distance query — the tracker is
edge-triggered: a poll emits at most one update, and repeating the same
poll input immediately after emits nothing. -/
theorem updateTrack_edge_triggered_early (track : DistTrack) (inp : PollInput)
    (h : SteadyFail inp) :
    (updateTrack track inp).2.length ≤ 1 ∧
    (updateTrack (updateTrack track inp).1 inp).2 = [] := by
  obtain hc | ⟨k, hk⟩ := steadyFail_earlyKind inp h
  · constructor
    · simp [updateTrack, hc]
    · simp [updateTrack, hc]
  · rw [updateTrack_earlyKind track inp k hk,
      updateTrack_earlyKind (emitErr track k).1 inp k hk]
    exact ⟨emitErr_len track k, emitErr_idem track k⟩

/-- Witness for the amended C6: a provider whose info is missing from the
cache: the first poll emits one `NotFound` error update, the second poll
emits nothing. -/
theorem updateTrack_edge_triggered_early_witness :
    SteadyFail ⟨false, none, false, .ok (0, 0), .ok 0⟩ ∧
    ((updateTrack ⟨0, 0, 0, .errNone⟩ ⟨false, none, false, .ok (0, 0), .ok 0⟩).2.length ≤ 1 ∧
     (updateTrack (updateTrack ⟨0, 0, 0, .errNone⟩ ⟨false, none, false, .ok (0, 0), .ok 0⟩).1
        ⟨false, none, false, .ok (0, 0), .ok 0⟩).2 = []) :=
  ⟨Or.inr (Or.inl rfl),
   updateTrack_edge_triggered_early ⟨0, 0, 0, .errNone⟩
     ⟨false, none, false, .ok (0, 0), .ok 0⟩ (Or.inr (Or.inl rfl))⟩

end IpniCli

